import Mathlib

/-!
Shallow embedding of `src/EI_MCMC_bayesian_optimization/searcher.py`
(a batch Bayesian-optimization searcher) and proofs about it.

Conventions of the embedding:
* Python floats are modelled as rationals (`ℚ`).
* A parameter configuration (`parameters_config`) is an association list
  `List (String × ParamConf)`; Python dict insertion order is the list order
  and `sorted(...)` is modelled by an insertion sort on the name.
* Randomness (`random.randint(0, len-1)`) is modelled by an explicit stream
  `rng : ℕ → ℕ`; the k-th draw on a coordinate list of length `len` yields
  index `rng k % len`, so quantifying over all `rng` covers all random runs.
* The Gaussian-process ensemble (`sklearn`) and the local optimizer
  (`scipy.optimize.minimize`) are external libraries: their outputs enter
  the model as explicit parameters (per-member `(mean, std)` predictions,
  an abstract normal cdf/pdf, optimizer run results, a candidate oracle).
-/

/-- Configuration of one parameter (`parameters_config[name]` in the source):
its list of valid coordinates (`coords`), the continuous bounds
(`double_min_value` / `double_max_value`) and the type tag
(`parameter_type`, `1` for double). -/
structure ParamConf where
  coords : List ℚ
  minVal : ℚ
  maxVal : ℚ
  ptype : ℕ
deriving DecidableEq

/-- A parameter space: Python dict `parameters_config` in insertion order. -/
abbrev ParamsConfig := List (String × ParamConf)

/-- Name comparison used to model Python's `sorted(..., key=lambda x: x[0])`
on string keys (via the total order `compare` on `String`). -/
def nameLeB (a b : String) : Bool :=
  match compare a b with
  | Ordering.gt => false
  | _ => true

/-- Insert an element into a list sorted by the Boolean comparison `le`. -/
def insertByB {α : Type} (le : α → α → Bool) (x : α) : List α → List α
  | [] => [x]
  | y :: t => if le x y then x :: y :: t else y :: insertByB le x t

/-- Insertion sort by the Boolean comparison `le`; models Python `sorted`.
Only the fact that the output is a fixed rearrangement of the input matters
for the claims below. -/
def sortByB {α : Type} (le : α → α → Bool) : List α → List α
  | [] => []
  | x :: t => insertByB le x (sortByB le t)

/-- The parameter space in sorted name order:
`sorted(self.parameters_config.items(), key=lambda x: x[0])`. -/
def sortConfig (cfg : ParamsConfig) : ParamsConfig :=
  sortByB (fun a b => nameLeB a.1 b.1) cfg

/-- Minimum of a list of rationals, `np.min` / `ndarray.min()` (0 on empty). -/
def listMin : List ℚ → ℚ
  | [] => 0
  | x :: t => t.foldl min x

/-- Maximum of a list of rationals, `ndarray.max()` (0 on empty). -/
def listMax : List ℚ → ℚ
  | [] => 0
  | x :: t => t.foldl max x

/-- Index of the first occurrence of the minimum, `np.argmin` (0 on empty). -/
def argminIdx : List ℚ → ℕ
  | [] => 0
  | [_] => 0
  | x :: y :: t => if x ≤ listMin (y :: t) then 0 else argminIdx (y :: t) + 1

/-- Index of the first occurrence of the maximum, `np.argmax` (0 on empty). -/
def argmaxIdx : List ℚ → ℕ
  | [] => 0
  | [_] => 0
  | x :: y :: t => if listMax (y :: t) ≤ x then 0 else argmaxIdx (y :: t) + 1

/-- Model of `get_param_value(p_name, value)` (identical local helper in
`Searcher.get_valid_suggestion` and `Searcher.parse_suggestions`): if the
value is already a valid coordinate return it, otherwise return the
coordinate with minimal absolute distance, ties broken by first occurrence
(`np.argmin` picks the first minimal index). -/
def getParamValue (coords : List ℚ) (value : ℚ) : ℚ :=
  if value ∈ coords then value
  else coords.getD (argminIdx (coords.map (fun c => |c - value|))) 0

-- Basic lemmas about the sort and the min/argmin helpers.

theorem mem_insertByB {α : Type} (le : α → α → Bool) (x a : α) (l : List α) :
    a ∈ insertByB le x l ↔ a = x ∨ a ∈ l := by
  induction l with
  | nil => simp [insertByB]
  | cons y t ih =>
      by_cases h : le x y = true
      · simp [insertByB, h, or_assoc]
      · simp only [insertByB, h, if_neg, Bool.not_eq_true, List.mem_cons, ih]
        tauto

theorem mem_sortByB {α : Type} (le : α → α → Bool) (a : α) (l : List α) :
    a ∈ sortByB le l ↔ a ∈ l := by
  induction l with
  | nil => simp [sortByB]
  | cons x t ih => simp [sortByB, mem_insertByB, ih]

theorem length_insertByB {α : Type} (le : α → α → Bool) (x : α) (l : List α) :
    (insertByB le x l).length = l.length + 1 := by
  induction l with
  | nil => simp [insertByB]
  | cons y t ih =>
      by_cases h : le x y = true
      · simp [insertByB, h]
      · simp [insertByB, h, ih]

theorem length_sortByB {α : Type} (le : α → α → Bool) (l : List α) :
    (sortByB le l).length = l.length := by
  induction l with
  | nil => rfl
  | cons x t ih => simp [sortByB, length_insertByB, ih]

theorem argminIdx_lt_length (l : List ℚ) (h : l ≠ []) : argminIdx l < l.length := by
  induction l with
  | nil => exact absurd rfl h
  | cons x t ih =>
      cases t with
      | nil => simp [argminIdx]
      | cons y s =>
          by_cases hx : x ≤ listMin (y :: s)
          · simp [argminIdx, hx]
          · simpa [argminIdx, hx, Nat.succ_lt_succ_iff] using
              ih (List.cons_ne_nil y s)

theorem getD_mem_of_lt {α : Type} (l : List α) (n : ℕ) (d : α) (h : n < l.length) :
    l.getD n d ∈ l := by
  induction l generalizing n with
  | nil => simp at h
  | cons x t ih =>
      cases n with
      | zero => simp
      | succ m =>
          have : m < t.length := by simpa using h
          simpa using Or.inr (ih m this)

theorem getParamValue_mem (coords : List ℚ) (value : ℚ) (h : coords ≠ []) :
    getParamValue coords value ∈ coords := by
  unfold getParamValue
  by_cases hv : value ∈ coords
  · simp [hv]
  · have hlen : coords.map (fun c => |c - value|) ≠ [] := by
      simpa using h
    have hlt : argminIdx (coords.map (fun c => |c - value|)) < coords.length := by
      simpa using argminIdx_lt_length _ hlen
    simp only [hv, if_false]
    exact getD_mem_of_lt _ _ _ hlt

/-! ## The acquisition (utility) function: `UtilityFunction` -/

/-- The acquisition function object of the source (`UtilityFunction`): kind
tag (`self.kind`), `kappa` and the additive exploration bias `x_i`. -/
structure UtilityFunction where
  kind : String
  kappa : ℚ
  x_i : ℚ
deriving DecidableEq

/-- The error message raised by `UtilityFunction.__init__` for an
unimplemented kind (it interpolates the offending kind). -/
def utilityKindError (kind : String) : String :=
  "The utility function " ++ kind ++
    " has not been implemented, please choose one of ucb, ei, or poi."

/-- Model of `UtilityFunction.__init__(kind, kappa, x_i)`: raises
`NotImplementedError` (modelled as `Except.error`) when `kind` is not one of
`gp_ucb`, `gp_ei`, `gp_poi`; otherwise stores the fields. -/
def mkUtilityFunction (kind : String) (kappa x_i : ℚ) :
    Except String UtilityFunction :=
  if kind ∈ ["gp_ucb", "gp_ei", "gp_poi"] then
    Except.ok { kind := kind, kappa := kappa, x_i := x_i }
  else
    Except.error (utilityKindError kind)

/-- One ensemble member's Expected Improvement term inside
`UtilityFunction._ei`: with `a = mean - y_max - x_i` and `z = a / std`, the
value `a * Φ(z) + std * φ(z)`. The standard normal cdf `Φ` (`norm.cdf`) and
pdf `φ` (`norm.pdf`) come from `scipy` and are abstract parameters here. -/
def memberEI (cdf pdf : ℚ → ℚ) (y_max x_i mean std : ℚ) : ℚ :=
  let a := mean - y_max - x_i
  let z := a / std
  a * cdf z + std * pdf z

/-- Model of `UtilityFunction._ei(x_x, g_p, y_max, x_i)` at a single candidate:
iterate over the ensemble members' `(mean, std)` predictions; the running
`maximum` starts as the first member's value and the update
`maximum[maximum < x] = x` takes the pointwise maximum. On an empty member
list the Python function returns `None`. -/
def ensembleEI (cdf pdf : ℚ → ℚ) (y_max x_i : ℚ) (preds : List (ℚ × ℚ)) :
    Option ℚ :=
  preds.foldl
    (fun acc p =>
      match acc with
      | none => some (memberEI cdf pdf y_max x_i p.1 p.2)
      | some m => some (max m (memberEI cdf pdf y_max x_i p.1 p.2)))
    none

/-- Model of `UtilityFunction._poi(x_x, g_p, y_max, x_i)` at a single candidate:
`Φ((mean - y_max - x_i) / std)` from the single model's prediction. -/
def poiUtility (cdf : ℚ → ℚ) (y_max x_i mean std : ℚ) : ℚ :=
  cdf ((mean - y_max - x_i) / std)

/-- The duck-typed `model` argument of `UtilityFunction.utility`: `_ei`
iterates it as a list of members (each contributing a `(mean, std)`
prediction at the candidate), `_poi` calls `.predict` on it directly
(one `(mean, std)` prediction). -/
structure ModelArg where
  members : List (ℚ × ℚ)
  selfPredict : ℚ × ℚ

/-- Model of `UtilityFunction.utility(x_x, model, y_max)` at a single candidate:
dispatch on the kind; `gp_ei` and `gp_poi` have branches, any other stored
kind (in particular `gp_ucb`) falls through and returns Python `None`. -/
def utilityAt (u : UtilityFunction) (cdf pdf : ℚ → ℚ) (m : ModelArg)
    (y_max : ℚ) : Option ℚ :=
  if u.kind = "gp_ei" then ensembleEI cdf pdf y_max u.x_i m.members
  else if u.kind = "gp_poi" then
    some (poiUtility cdf y_max u.x_i m.selfPredict.1 m.selfPredict.2)
  else none

theorem ensembleEI_fold_ge (cdf pdf : ℚ → ℚ) (y_max x_i : ℚ)
    (preds : List (ℚ × ℚ)) (m0 : ℚ) :
    ∃ v, (preds.foldl
      (fun acc p =>
        match acc with
        | none => some (memberEI cdf pdf y_max x_i p.1 p.2)
        | some m => some (max m (memberEI cdf pdf y_max x_i p.1 p.2)))
      (some m0)) = some v ∧ m0 ≤ v ∧
      ∀ p ∈ preds, memberEI cdf pdf y_max x_i p.1 p.2 ≤ v := by
  induction preds generalizing m0 with
  | nil => exact ⟨m0, rfl, le_refl m0, by simp⟩
  | cons q t ih =>
      obtain ⟨v, hfold, hle, hall⟩ :=
        ih (max m0 (memberEI cdf pdf y_max x_i q.1 q.2))
      refine ⟨v, ?_, ?_, ?_⟩
      · simpa using hfold
      · exact le_trans (le_max_left _ _) hle
      · intro p hp
        rcases List.mem_cons.mp hp with hq | ht
        · subst hq
          exact le_trans (le_max_right _ _) hle
        · exact hall p ht

theorem getParamValue_of_mem (coords : List ℚ) (value : ℚ)
    (h : value ∈ coords) : getParamValue coords value = value := by
  simp [getParamValue, h]

/-- C5: Discretization is idempotent: for every parameter whose coordinate
list is non-empty and every value `x`, `get_param_value` applied to its own
result returns it unchanged (`snap(snap(x)) == snap(x)`), where the snap
returns the closest valid coordinate with ties broken by first occurrence. -/
theorem snap_idempotent (coords : List ℚ) (x : ℚ) (h : coords ≠ []) :
    getParamValue coords (getParamValue coords x) = getParamValue coords x :=
  getParamValue_of_mem coords (getParamValue coords x)
    (getParamValue_mem coords x h)

/-- Witness for C5 at the concrete coordinate list `[0, 1, 5/2]` and the
off-grid value `9/5`. -/
theorem snap_idempotent_witness :
    ([(0 : ℚ), 1, 5/2] ≠ []) ∧
      getParamValue [(0 : ℚ), 1, 5/2] (getParamValue [(0 : ℚ), 1, 5/2] (9/5))
        = getParamValue [(0 : ℚ), 1, 5/2] (9/5) :=
  ⟨by decide, snap_idempotent [(0 : ℚ), 1, 5/2] (9/5) (by decide)⟩

/-- C4: the ensemble-aggregated Expected Improvement of `_ei` (elementwise
maximum across members) is defined on any non-empty member list and is
greater than or equal to each individual member's Expected Improvement
`a*Φ(z) + std*φ(z)` at the same candidate, for every cdf/pdf pair, every
`y_max`, every exploration bias and every member prediction list. -/
theorem ensembleEI_ge_member (cdf pdf : ℚ → ℚ) (y_max x_i : ℚ)
    (preds : List (ℚ × ℚ)) (p : ℚ × ℚ) (hp : p ∈ preds) :
    ∃ v, ensembleEI cdf pdf y_max x_i preds = some v ∧
      memberEI cdf pdf y_max x_i p.1 p.2 ≤ v := by
  cases preds with
  | nil => cases hp
  | cons q t =>
      have hfold := ensembleEI_fold_ge cdf pdf y_max x_i t
        (memberEI cdf pdf y_max x_i q.1 q.2)
      obtain ⟨v, hv, hle, hall⟩ := hfold
      refine ⟨v, ?_, ?_⟩
      · simpa [ensembleEI] using hv
      · rcases List.mem_cons.mp hp with hq | ht
        · subst hq; exact hle
        · exact hall p ht

/-- Witness for C4 with two concrete members (identity taken for the
abstract cdf/pdf) at the second member. -/
theorem ensembleEI_ge_member_witness :
    ((5, 7) ∈ [((2 : ℚ), (3 : ℚ)), (5, 7)]) ∧
      ∃ v, ensembleEI id id 1 0 [((2 : ℚ), (3 : ℚ)), (5, 7)] = some v ∧
        memberEI id id 1 0 5 7 ≤ v :=
  ⟨by decide, ensembleEI_ge_member id id 1 0 [((2 : ℚ), (3 : ℚ)), (5, 7)]
    (5, 7) (by decide)⟩

/-- C7: constructing the utility function with a kind outside
`{gp_ucb, gp_ei, gp_poi}` fails at construction with an error message that
interpolates the unsupported kind (never a silent default), while a
supported kind constructs the object with the given fields. -/
theorem mkUtilityFunction_spec (kind : String) (kappa x_i : ℚ) :
    (kind ∉ ["gp_ucb", "gp_ei", "gp_poi"] →
      mkUtilityFunction kind kappa x_i = Except.error (utilityKindError kind) ∧
        ∃ pre post, utilityKindError kind = pre ++ kind ++ post) ∧
    (kind ∈ ["gp_ucb", "gp_ei", "gp_poi"] →
      mkUtilityFunction kind kappa x_i =
        Except.ok { kind := kind, kappa := kappa, x_i := x_i }) := by
  constructor
  · intro h
    refine ⟨by simp [mkUtilityFunction, h], "The utility function ",
      " has not been implemented, please choose one of ucb, ei, or poi.", rfl⟩
  · intro h
    simp [mkUtilityFunction, h]

/-- Witness for C7 at the unsupported kind `foo` and the supported kind
`gp_ei`. -/
theorem mkUtilityFunction_spec_witness :
    (mkUtilityFunction "foo" 1 2 = Except.error (utilityKindError "foo") ∧
      ∃ pre post, utilityKindError "foo" = pre ++ "foo" ++ post) ∧
    mkUtilityFunction "gp_ei" 1 2 =
      Except.ok { kind := "gp_ei", kappa := 1, x_i := 2 } :=
  ⟨(mkUtilityFunction_spec "foo" 1 2).1 (by decide),
    (mkUtilityFunction_spec "gp_ei" 1 2).2 (by decide)⟩

/-- C10: `gp_ucb` is accepted at construction, but `utility` has no branch
for it and returns Python `None` for every input; the `gp_ei` kind returns a
numeric value on every non-empty ensemble and `gp_poi` returns a numeric
value on every input. -/
theorem ucb_accepted_but_none (kappa x_i : ℚ) :
    (mkUtilityFunction "gp_ucb" kappa x_i =
      Except.ok { kind := "gp_ucb", kappa := kappa, x_i := x_i }) ∧
    (∀ (cdf pdf : ℚ → ℚ) (m : ModelArg) (y_max : ℚ),
      utilityAt { kind := "gp_ucb", kappa := kappa, x_i := x_i }
        cdf pdf m y_max = none) ∧
    (∀ (cdf pdf : ℚ → ℚ) (m : ModelArg) (y_max : ℚ), m.members ≠ [] →
      ∃ v, utilityAt { kind := "gp_ei", kappa := kappa, x_i := x_i }
        cdf pdf m y_max = some v) ∧
    (∀ (cdf pdf : ℚ → ℚ) (m : ModelArg) (y_max : ℚ),
      ∃ v, utilityAt { kind := "gp_poi", kappa := kappa, x_i := x_i }
        cdf pdf m y_max = some v) := by
  refine ⟨by simp [mkUtilityFunction], ?_, ?_, ?_⟩
  · intro cdf pdf m y_max
    simp [utilityAt]
  · intro cdf pdf m y_max hm
    cases hmem : m.members with
    | nil => exact absurd hmem hm
    | cons q t =>
        obtain ⟨v, hv, -, -⟩ := ensembleEI_fold_ge cdf pdf y_max x_i t
          (memberEI cdf pdf y_max x_i q.1 q.2)
        exact ⟨v, by simpa [utilityAt, ensembleEI, hmem] using hv⟩
  · intro cdf pdf m y_max
    exact ⟨poiUtility cdf y_max x_i m.selfPredict.1 m.selfPredict.2,
      by simp [utilityAt]⟩

/-- Witness for C10: instantiated at `kappa = 1`, `x_i = 0`, with a
one-member ensemble for the `gp_ei` part. -/
theorem ucb_accepted_but_none_witness :
    (utilityAt { kind := "gp_ucb", kappa := 1, x_i := 0 } id id
      ⟨[(2, 3)], (2, 3)⟩ 0 = none) ∧
    (∃ v, utilityAt { kind := "gp_ei", kappa := 1, x_i := 0 } id id
      ⟨[(2, 3)], (2, 3)⟩ 0 = some v) :=
  ⟨(ucb_accepted_but_none 1 0).2.1 id id ⟨[(2, 3)], (2, 3)⟩ 0,
    (ucb_accepted_but_none 1 0).2.2.1 id id ⟨[(2, 3)], (2, 3)⟩ 0 (by decide)⟩

/-! ## The acquisition maximizer: `Searcher.acq_max` -/

/-- Result of one `scipy.optimize.minimize` local run inside `acq_max`:
`res.success`, `res.x` and the objective value `res.fun[0]` (which is the
negated acquisition value at `res.x`). `scipy` is external, so the runs
enter the model as data. -/
structure OptRes where
  success : Bool
  x : List ℚ
  fval : ℚ
deriving DecidableEq

/-- Model of `np.clip(x, bounds[:, 0], bounds[:, 1])`, componentwise
`min(max(x_j, lo_j), hi_j)`. -/
def clipVec (x : List ℚ) (bounds : List (ℚ × ℚ)) : List ℚ :=
  List.zipWith (fun v b => min (max v b.1) b.2) x bounds

/-- The local-run loop of `acq_max`: starting from the warm-up incumbent,
skip runs with `not res.success` and replace the incumbent whenever
`-res.fun[0] >= max_acq`. -/
def bestFold (runs : List OptRes) (acc : List ℚ × ℚ) : List ℚ × ℚ :=
  runs.foldl
    (fun acc r => if r.success = true ∧ acc.2 ≤ -r.fval then (r.x, -r.fval)
      else acc) acc

/-- Model of `Searcher.acq_max`: score the warm-up samples in one batch, take the
arg-max as incumbent (`x_tries[ys.argmax()]`, `ys.max()`), fold the local
optimizer runs, and clip the final vector into the bounds. -/
def acqMax (score : List ℚ → ℚ) (xTries : List (List ℚ)) (runs : List OptRes)
    (bounds : List (ℚ × ℚ)) : List ℚ × ℚ :=
  let ys := xTries.map score
  let best := bestFold runs (xTries.getD (argmaxIdx ys) [], listMax ys)
  (clipVec best.1 bounds, best.2)

theorem bestFold_cons (r : OptRes) (t : List OptRes) (acc : List ℚ × ℚ) :
    bestFold (r :: t) acc =
      bestFold t
        (if r.success = true ∧ acc.2 ≤ -r.fval then (r.x, -r.fval) else acc) :=
  rfl

theorem bestFold_filter (runs : List OptRes) (acc : List ℚ × ℚ) :
    bestFold runs acc = bestFold (runs.filter (fun r => r.success)) acc := by
  induction runs generalizing acc with
  | nil => rfl
  | cons r t ih =>
      rw [bestFold_cons]
      by_cases hs : r.success = true
      · rw [List.filter_cons_of_pos (by simpa using hs), bestFold_cons]
        exact ih _
      · rw [List.filter_cons_of_neg (by simpa using hs)]
        have hif : (if r.success = true ∧ acc.2 ≤ -r.fval then (r.x, -r.fval)
            else acc) = acc := by
          simp [hs]
        rw [hif]
        exact ih acc

theorem le_bestFold_snd (runs : List OptRes) (acc : List ℚ × ℚ) :
    acc.2 ≤ (bestFold runs acc).2 := by
  induction runs generalizing acc with
  | nil => exact le_refl _
  | cons r t ih =>
      by_cases h : r.success = true ∧ acc.2 ≤ -r.fval
      · have := ih (r.x, -r.fval)
        simp only [bestFold, List.foldl_cons, if_pos h] at this ⊢
        exact le_trans h.2 this
      · simpa [bestFold, if_neg h] using ih acc

theorem bestFold_ge_runs (runs : List OptRes) (acc : List ℚ × ℚ)
    (r : OptRes) (hr : r ∈ runs) (hs : r.success = true) :
    -r.fval ≤ (bestFold runs acc).2 := by
  induction runs generalizing acc with
  | nil => cases hr
  | cons q t ih =>
      rcases List.mem_cons.mp hr with hq | ht
      · subst hq
        by_cases h : r.success = true ∧ acc.2 ≤ -r.fval
        · have := le_bestFold_snd t (r.x, -r.fval)
          simpa [bestFold, if_pos h] using this
        · have hlt : -r.fval ≤ acc.2 := by
            rcases not_and_or.mp h with h1 | h2
            · exact absurd hs h1
            · exact le_of_not_le h2
          have := le_bestFold_snd t acc
          calc -r.fval ≤ acc.2 := hlt
            _ ≤ (bestFold t acc).2 := this
            _ = (bestFold (r :: t) acc).2 := by simp [bestFold, if_neg h]
      · by_cases h : q.success = true ∧ acc.2 ≤ -q.fval
        · simpa [bestFold, if_pos h] using ih (q.x, -q.fval) ht
        · simpa [bestFold, if_neg h] using ih acc ht

theorem bestFold_snd_attained (runs : List OptRes) (acc : List ℚ × ℚ) :
    (bestFold runs acc).2 = acc.2 ∨
      ∃ r ∈ runs, r.success = true ∧ (bestFold runs acc).2 = -r.fval := by
  induction runs generalizing acc with
  | nil => exact Or.inl rfl
  | cons q t ih =>
      by_cases h : q.success = true ∧ acc.2 ≤ -q.fval
      · rcases ih (q.x, -q.fval) with heq | ⟨r, hr, hs, heq⟩
        · refine Or.inr ⟨q, List.mem_cons_self q t, h.1, ?_⟩
          simpa [bestFold, if_pos h] using heq
        · refine Or.inr ⟨r, List.mem_cons_of_mem q hr, hs, ?_⟩
          simpa [bestFold, if_pos h] using heq
      · rcases ih acc with heq | ⟨r, hr, hs, heq⟩
        · exact Or.inl (by simpa [bestFold, if_neg h] using heq)
        · refine Or.inr ⟨r, List.mem_cons_of_mem q hr, hs, ?_⟩
          simpa [bestFold, if_neg h] using heq

theorem clipVec_getD (x : List ℚ) (bounds : List (ℚ × ℚ)) (j : ℕ)
    (hj : j < (clipVec x bounds).length) :
    (clipVec x bounds).getD j 0 =
      min (max (x.getD j 0) (bounds.getD j (0, 0)).1) (bounds.getD j (0, 0)).2 := by
  induction x generalizing bounds j with
  | nil => simp [clipVec] at hj
  | cons v xt ih =>
      cases bounds with
      | nil => simp [clipVec] at hj
      | cons b bt =>
          cases j with
          | zero => simp [clipVec]
          | succ m =>
              have hm : m < (clipVec xt bt).length := by
                simpa [clipVec] using hj
              simpa [clipVec] using ih bt m hm

theorem length_clipVec_le (x : List ℚ) (bounds : List (ℚ × ℚ)) :
    (clipVec x bounds).length ≤ bounds.length := by
  simp only [clipVec, List.length_zipWith]
  exact min_le_right _ _

/-- The C9 property of `acq_max`, stated over the embedding: runs that
failed to converge have no effect (discarding them changes nothing), the
returned score is at least the warm-up incumbent score and at least every
converged run's score, it is attained by one of them, and every component
of the returned vector lies inside the corresponding `[min, max]` bound. -/
def AcqMaxClaim (score : List ℚ → ℚ) (xTries : List (List ℚ))
    (runs : List OptRes) (bounds : List (ℚ × ℚ)) : Prop :=
  acqMax score xTries runs bounds
      = acqMax score xTries (runs.filter (fun r => r.success)) bounds ∧
  listMax (xTries.map score) ≤ (acqMax score xTries runs bounds).2 ∧
  (∀ r ∈ runs, r.success = true →
    -r.fval ≤ (acqMax score xTries runs bounds).2) ∧
  ((acqMax score xTries runs bounds).2 = listMax (xTries.map score) ∨
    ∃ r ∈ runs, r.success = true ∧
      (acqMax score xTries runs bounds).2 = -r.fval) ∧
  (∀ j, j < (acqMax score xTries runs bounds).1.length →
    (bounds.getD j (0, 0)).1 ≤ (acqMax score xTries runs bounds).1.getD j 0 ∧
      (acqMax score xTries runs bounds).1.getD j 0 ≤ (bounds.getD j (0, 0)).2)

/-- C9: for every batch scoring function, warm-up sample set, list of local
optimizer run results and valid bounds (`min ≤ max` componentwise),
`acq_max` discards non-converged runs without effect, returns the highest
score among the warm-up incumbent and the converged runs (ties allowed, and
the score is attained by one of them), and returns a candidate vector that
is componentwise inside the bounds after clipping. -/
theorem acqMax_spec (score : List ℚ → ℚ) (xTries : List (List ℚ))
    (runs : List OptRes) (bounds : List (ℚ × ℚ))
    (hb : ∀ b ∈ bounds, b.1 ≤ b.2) :
    AcqMaxClaim score xTries runs bounds := by
  refine ⟨?_, ?_, ?_, ?_, ?_⟩
  · simp only [acqMax]
    rw [← bestFold_filter]
  · simp only [acqMax]
    simpa using le_bestFold_snd runs
      (xTries.getD (argmaxIdx (xTries.map score)) [],
        listMax (xTries.map score))
  · intro r hr hs
    simp only [acqMax]
    exact bestFold_ge_runs runs _ r hr hs
  · simp only [acqMax]
    rcases bestFold_snd_attained runs
        (xTries.getD (argmaxIdx (xTries.map score)) [],
          listMax (xTries.map score)) with h | ⟨r, hr, hs, heq⟩
    · exact Or.inl (by simpa using h)
    · exact Or.inr ⟨r, hr, hs, heq⟩
  · intro j hj
    simp only [acqMax] at hj ⊢
    rw [clipVec_getD _ _ _ hj]
    have hjb : j < bounds.length :=
      lt_of_lt_of_le hj (length_clipVec_le _ _)
    have hlh := hb _ (getD_mem_of_lt bounds j (0, 0) hjb)
    exact ⟨le_min (le_max_right _ _) hlh, min_le_right _ _⟩

/-- Witness for C9: two warm-up points scored by their first component, one
converged run at score 3 and one failed run, with bounds `[0, 4]`. -/
theorem acqMax_spec_witness :
    (∀ b ∈ [((0 : ℚ), (4 : ℚ))], b.1 ≤ b.2) ∧
      AcqMaxClaim (fun l => l.getD 0 0) [[0], [2]]
        [⟨true, [5], -3⟩, ⟨false, [9], -100⟩] [(0, 4)] :=
  ⟨by decide, acqMax_spec (fun l => l.getD 0 0) [[0], [2]]
    [⟨true, [5], -3⟩, ⟨false, [9], -100⟩] [(0, 4)] (by decide)⟩

/-! ## The searcher: construction, random sampling, and `suggest` -/

/-- The mutable per-instance state of `Searcher` that the claims depend on:
the parameter configuration, the round counter `self.iter`, the exploration
spread `self.improve_step` (initially `ImproveStep = 3`, decayed by
`self.decay_rate = 0.9` each round with history) and the
`self.de_duplication` flag (`De_duplication = True` at module level). The
GP ensemble itself lives in `sklearn` and enters the model through the
candidate oracle of `suggest`. -/
structure SearcherState where
  config : ParamsConfig
  iter : ℕ
  improve_step : ℚ
  de_duplication : Bool

/-- Modelled from the spec: `searcher.py` imports `AbstractSearcher` from
`thpo.abstract_searcher`, repository code that is not present under `src/`,
and `Searcher.__init__` delegates the schema validation to it. Per the spec
(§6), "only continuous-typed parameters with a materialized coordinate list
are supported — any other type is rejected at construction (fail fast)";
the continuous (double) type is tag `1` (`parameter_type` docstring). -/
def checkParametersConfig (cfg : ParamsConfig) : Except String Unit :=
  if cfg.all (fun p => p.2.ptype == 1 && !p.2.coords.isEmpty) then
    Except.ok ()
  else
    Except.error
      "parameter_type must be 1 (double) with a materialized coords list"

/-- Model of `Searcher.__init__(parameters_config, n_iter, n_suggestion)`: validate
the schema (see `checkParametersConfig`) and initialize the round state
(`iter = 0`, `improve_step = ImproveStep = 3`,
`de_duplication = De_duplication = True`). -/
def mkSearcher (cfg : ParamsConfig) (n_iter n_suggestion : ℕ) :
    Except String SearcherState :=
  match checkParametersConfig cfg with
  | Except.error e => Except.error e
  | Except.ok _ =>
      Except.ok
        { config := cfg, iter := 0, improve_step := 3,
          de_duplication := true }

/-- One random assignment of `Searcher.init_param_group`: iterate the
parameter dict in insertion order, drawing
`p_conf['coords'][random.randint(0, len(coords) - 1)]` per parameter; the
draw with stream position `k` is the index `rng k % len(coords)`. -/
def assignRow (cfg : ParamsConfig) (rng : ℕ → ℕ) (k0 : ℕ) :
    List (String × ℚ) :=
  match cfg with
  | [] => []
  | p :: t =>
      (p.1, p.2.coords.getD (rng k0 % p.2.coords.length) 0)
        :: assignRow t rng (k0 + 1)

/-- Model of `Searcher.init_param_group(n_suggestions)`: that many random grid-valid
assignments (suggestion `s` consumes stream positions
`s * len(cfg) + j`). -/
def initParamGroup (cfg : ParamsConfig) (rng : ℕ → ℕ) (n : ℕ) :
    List (List (String × ℚ)) :=
  (List.range n).map (fun s => assignRow cfg rng (s * cfg.length))

/-- The coordinate vector drawn by `Searcher.random_sample()`: one random
valid coordinate per parameter, parameters in sorted name order. -/
def sampleRow (scfg : ParamsConfig) (rng : ℕ → ℕ) (k0 : ℕ) : List ℚ :=
  match scfg with
  | [] => []
  | p :: t =>
      p.2.coords.getD (rng k0 % p.2.coords.length) 0 :: sampleRow t rng (k0 + 1)

/-- Model of `Searcher.random_sample()` on the sorted parameter space. -/
def randomSample (cfg : ParamsConfig) (rng : ℕ → ℕ) (k0 : ℕ) : List ℚ :=
  sampleRow (sortConfig cfg) rng k0

/-- Model of `Searcher.get_valid_suggestion(suggestion)`: snap each coordinate of a
candidate vector to its parameter's grid, parameters in sorted name
order. -/
def getValidSuggestion (scfg : ParamsConfig) (c : List ℚ) : List ℚ :=
  List.zipWith (fun p v => getParamValue p.2.coords v) scfg c

/-- Model of `Searcher.parse_suggestions` on one candidate vector: the same snapping
keyed by parameter name. -/
def parseSuggestion (scfg : ParamsConfig) (c : List ℚ) : List (String × ℚ) :=
  List.zipWith (fun p v => (p.1, getParamValue p.2.coords v)) scfg c

/-- Model of `Searcher.parse_suggestions(suggestions)`. -/
def parseSuggestions (scfg : ParamsConfig) (cs : List (List ℚ)) :
    List (List (String × ℚ)) :=
  cs.map (parseSuggestion scfg)

/-- One row of `x_datas` in `Searcher.parse_suggestions_history`: the
observation's values sorted by parameter name. -/
def historyRow (ob : List (String × ℚ)) : List ℚ :=
  (sortByB (fun a b => nameLeB a.1 b.1) ob).map Prod.snd

/-- Model of `x_datas` from `Searcher.parse_suggestions_history`. -/
def xDatas (history : List (List (String × ℚ) × ℚ)) : List (List ℚ) :=
  history.map (fun ob => historyRow ob.1)

/-- The duplicate test in the de-duplication loop of `Searcher.suggest`:
some historical row equals the snapped candidate
(`(data == np.array(self.get_valid_suggestion(c))).all()`). -/
def isDup (xdatas : List (List ℚ)) (scfg : ParamsConfig) (c : List ℚ) :
    Bool :=
  xdatas.any (fun d => decide (d = getValidSuggestion scfg c))

/-- The per-slot score multiplier `Lambda * index + 1` of `Searcher.suggest`
(module level `Lambda = 1`, so slot `i` gets the factor `i + 1`), built as a
rational by recursion on the slot index. -/
def slotFactor : ℕ → ℚ
  | 0 => 1
  | i + 1 => slotFactor i + 1

/-- The `n_suggestions + 2` (candidate, adjusted score) pairs collected in
`Searcher.suggest`: slot `i`'s maximizer result (the oracle value
`cands i`, produced through `sklearn`/`scipy` in `get_single_suggest`)
with its score inflated by `Lambda * i + 1` (see `slotFactor`). -/
def adjustedCands (cands : ℕ → List ℚ × ℚ) (n : ℕ) : List (List ℚ × ℚ) :=
  (List.range (n + 2)).map
    (fun i => ((cands i).1, (cands i).2 * slotFactor i))

/-- Model of `suggestions_candidate.sort(key=lambda y: y[1], reverse=True)`. -/
def sortedCands (cands : ℕ → List ℚ × ℚ) (n : ℕ) : List (List ℚ × ℚ) :=
  sortByB (fun a b => decide (b.2 ≤ a.2)) (adjustedCands cands n)

/-- The candidate-selection block of `Searcher.suggest` (the raw vectors
appended to `suggestions` before `parse_suggestions`): with de-duplication,
walk the sorted candidates, skip every candidate whose snapped vector
equals a historical row, stop at `n` accepted, and backfill the rest with
`random_sample`; without de-duplication, take the top `n`. -/
def suggestRaw (st : SearcherState) (xdatas : List (List ℚ)) (n : ℕ)
    (rng : ℕ → ℕ) (cands : ℕ → List ℚ × ℚ) : List (List ℚ) :=
  let scfg := sortConfig st.config
  let sorted := (sortedCands cands n).map Prod.fst
  if st.de_duplication then
    let acc := (sorted.filter (fun c => !(isDup xdatas scfg c))).take n
    acc ++ (List.range (n - acc.length)).map
      (fun t => randomSample st.config rng (t * st.config.length))
  else
    sorted.take n

/-- The observable outcome of one `Searcher.suggest` call: the returned
assignments, whether the surrogate ensemble was refitted this round
(`self.train_gps`), and the updated round state. -/
structure SuggestOutcome where
  suggestions : List (List (String × ℚ))
  fitCalled : Bool
  finalState : SearcherState

/-- Model of `Searcher.suggest(suggestions_history, n_suggestions)`: bump
`self.iter`; with an empty (or `None`) history return
`init_param_group(n_suggestions)` with no ensemble fit; otherwise decay
`improve_step` by `0.9`, refit the ensemble on the parsed history, collect
the `n_suggestions + 2` adjusted candidates, select raw vectors per
`suggestRaw` and snap them with `parse_suggestions`. -/
def suggest (st : SearcherState) (history : List (List (String × ℚ) × ℚ))
    (n : ℕ) (rng : ℕ → ℕ) (cands : ℕ → List ℚ × ℚ) : SuggestOutcome :=
  if history.isEmpty then
    { suggestions := initParamGroup st.config rng n,
      fitCalled := false,
      finalState := { st with iter := st.iter + 1 } }
  else
    { suggestions :=
        parseSuggestions (sortConfig st.config)
          (suggestRaw st (xDatas history) n rng cands),
      fitCalled := true,
      finalState :=
        { config := st.config, iter := st.iter + 1,
          improve_step := st.improve_step * (9 / 10),
          de_duplication := st.de_duplication } }

theorem length_sortedCands (cands : ℕ → List ℚ × ℚ) (n : ℕ) :
    (sortedCands cands n).length = n + 2 := by
  simp [sortedCands, length_sortByB, adjustedCands]

theorem length_suggestRaw (st : SearcherState) (xdatas : List (List ℚ))
    (n : ℕ) (rng : ℕ → ℕ) (cands : ℕ → List ℚ × ℚ) :
    (suggestRaw st xdatas n rng cands).length = n := by
  simp only [suggestRaw]
  by_cases hdd : st.de_duplication = true
  · simp only [hdd, if_true, List.length_append, List.length_map,
      List.length_range]
    have hle : ((((sortedCands cands n).map Prod.fst).filter
        (fun c => !(isDup xdatas (sortConfig st.config) c))).take n).length
          ≤ n := by
      rw [List.length_take]
      exact min_le_left _ _
    omega
  · simp only [Bool.not_eq_true] at hdd
    rw [hdd]
    simp only [Bool.false_eq_true, if_false]
    rw [List.length_take, List.length_map, length_sortedCands]
    omega

/-- C1: for every searcher state, every history (the empty list also models
`None`), every requested count `n` and all internal random draws and
maximizer results, `suggest` returns exactly `n` parameter assignments. -/
theorem suggest_count (st : SearcherState)
    (history : List (List (String × ℚ) × ℚ)) (n : ℕ) (rng : ℕ → ℕ)
    (cands : ℕ → List ℚ × ℚ) :
    (suggest st history n rng cands).suggestions.length = n := by
  unfold suggest
  by_cases h : history.isEmpty
  · simp [h, initParamGroup]
  · simp [h, parseSuggestions, length_suggestRaw]

theorem exists_of_mem_zipWith {α β γ : Type} (f : α → β → γ) (l1 : List α)
    (l2 : List β) (c : γ) (h : c ∈ List.zipWith f l1 l2) :
    ∃ a ∈ l1, ∃ b ∈ l2, c = f a b := by
  induction l1 generalizing l2 with
  | nil => simp at h
  | cons x t ih =>
      cases l2 with
      | nil => simp at h
      | cons y s =>
          rcases List.mem_cons.mp (by simpa using h) with hc | hc
          · exact ⟨x, List.mem_cons_self x t, y, List.mem_cons_self y s, hc⟩
          · obtain ⟨a, ha, b, hb, hab⟩ := ih s hc
            exact ⟨a, List.mem_cons_of_mem x ha, b,
              List.mem_cons_of_mem y hb, hab⟩

theorem mem_assignRow {cfg : ParamsConfig} {rng : ℕ → ℕ} {k0 : ℕ}
    {e : String × ℚ} (h : e ∈ assignRow cfg rng k0) :
    ∃ q ∈ cfg, e.1 = q.1 ∧ (q.2.coords ≠ [] → e.2 ∈ q.2.coords) := by
  induction cfg generalizing k0 with
  | nil => simp [assignRow] at h
  | cons p t ih =>
      rcases List.mem_cons.mp h with he | he
      · refine ⟨p, List.mem_cons_self p t, ?_, ?_⟩
        · rw [he]
        · intro hnil
          rw [he]
          exact getD_mem_of_lt p.2.coords (rng k0 % p.2.coords.length) 0
            (Nat.mod_lt (rng k0) (List.length_pos.mpr hnil))
      · obtain ⟨q, hq, h1, h2⟩ := ih he
        exact ⟨q, List.mem_cons_of_mem p hq, h1, h2⟩

theorem eq_of_mem_of_nodup_keys {cfg : ParamsConfig}
    (hnd : (cfg.map Prod.fst).Nodup) {p q : String × ParamConf}
    (hp : p ∈ cfg) (hq : q ∈ cfg) (h : p.1 = q.1) : p = q := by
  induction cfg with
  | nil => cases hp
  | cons r t ih =>
      simp only [List.map_cons, List.nodup_cons] at hnd
      rcases List.mem_cons.mp hp with hpr | hp'
      · rcases List.mem_cons.mp hq with hqr | hq'
        · rw [hpr, hqr]
        · exfalso
          apply hnd.1
          have : q.1 ∈ t.map Prod.fst := List.mem_map_of_mem Prod.fst hq'
          rw [hpr] at h
          rw [h]
          exact this
      · rcases List.mem_cons.mp hq with hqr | hq'
        · exfalso
          apply hnd.1
          have : p.1 ∈ t.map Prod.fst := List.mem_map_of_mem Prod.fst hp'
          rw [hqr] at h
          rw [h] at this
          exact this
        · exact ih hnd.2 hp' hq'

/-- Grid-validity of a batch of assignments with respect to a parameter
configuration: every value assigned to a configured parameter belongs to
that parameter's valid-coordinate list. -/
def GridValid (cfg : ParamsConfig) (ss : List (List (String × ℚ))) : Prop :=
  ∀ s ∈ ss, ∀ e ∈ s, ∀ p ∈ cfg, p.1 = e.1 → e.2 ∈ p.2.coords

theorem gridValid_initParamGroup (cfg : ParamsConfig) (rng : ℕ → ℕ) (n : ℕ)
    (hne : ∀ p ∈ cfg, p.2.coords ≠ [])
    (hnd : (cfg.map Prod.fst).Nodup) :
    GridValid cfg (initParamGroup cfg rng n) := by
  intro s hs e he p hp hpe
  simp only [initParamGroup, List.mem_map] at hs
  obtain ⟨k, -, hk⟩ := hs
  rw [← hk] at he
  obtain ⟨q, hq, h1, h2⟩ := mem_assignRow he
  have hpq : p = q := eq_of_mem_of_nodup_keys hnd hp hq (hpe.trans h1)
  rw [hpq]
  exact h2 (hne q hq)

theorem mem_parseSuggestion {scfg : ParamsConfig} {c : List ℚ}
    {e : String × ℚ} (h : e ∈ parseSuggestion scfg c) :
    ∃ q ∈ scfg, e.1 = q.1 ∧ (q.2.coords ≠ [] → e.2 ∈ q.2.coords) := by
  obtain ⟨q, hq, v, -, hqv⟩ := exists_of_mem_zipWith _ _ _ _ h
  refine ⟨q, hq, ?_, ?_⟩
  · rw [hqv]
  · intro hnil
    rw [hqv]
    exact getParamValue_mem _ _ hnil

/-- C2: for every call to `suggest` (any state whose parameter dict has
non-empty coordinate lists and, as a Python dict, no duplicate names),
every returned suggestion assigns to each configured parameter a value from
that parameter's valid-coordinate list. -/
theorem suggest_values_valid (st : SearcherState)
    (history : List (List (String × ℚ) × ℚ)) (n : ℕ) (rng : ℕ → ℕ)
    (cands : ℕ → List ℚ × ℚ)
    (hne : ∀ p ∈ st.config, p.2.coords ≠ [])
    (hnd : (st.config.map Prod.fst).Nodup) :
    GridValid st.config (suggest st history n rng cands).suggestions := by
  unfold suggest
  by_cases h : history.isEmpty
  · simp only [h, if_true]
    exact gridValid_initParamGroup st.config rng n hne hnd
  · simp only [h, Bool.false_eq_true, if_false]
    intro s hs e he p hp hpe
    simp only [parseSuggestions, List.mem_map] at hs
    obtain ⟨c, -, hc⟩ := hs
    rw [← hc] at he
    obtain ⟨q, hq, h1, h2⟩ := mem_parseSuggestion he
    have hqcfg : q ∈ st.config := (mem_sortByB _ _ _).mp hq
    have hpq : p = q := eq_of_mem_of_nodup_keys hnd hp hqcfg (hpe.trans h1)
    rw [hpq]
    exact h2 (hne q hqcfg)

/-- A one-parameter configuration used to instantiate the universally
quantified theorems at concrete inputs. -/
def cfgW : ParamsConfig :=
  [("p1", { coords := [0, 1], minVal := 0, maxVal := 1, ptype := 1 })]

/-- A searcher state over `cfgW` as `Searcher.__init__` produces it. -/
def stW : SearcherState :=
  { config := cfgW, iter := 0, improve_step := 3, de_duplication := true }

/-- Witness for C2 at a one-parameter space, a one-observation history and
one requested suggestion. -/
theorem suggest_values_valid_witness :
    (∀ p ∈ stW.config, p.2.coords ≠ []) ∧
      (stW.config.map Prod.fst).Nodup ∧
      GridValid stW.config
        (suggest stW [([("p1", 0)], 1)] 1 (fun _ => 0)
          (fun _ => ([0], 5))).suggestions :=
  ⟨by decide, by decide,
    suggest_values_valid stW [([("p1", 0)], 1)] 1 (fun _ => 0)
      (fun _ => ([0], 5)) (by decide) (by decide)⟩

theorem assignRow_attains (cfg : ParamsConfig) (p : String × ParamConf)
    (hp : p ∈ cfg) (v : ℚ) (hv : v ∈ p.2.coords) (k0 : ℕ) :
    (p.1, v) ∈ assignRow cfg (fun _ => p.2.coords.indexOf v) k0 := by
  induction cfg generalizing k0 with
  | nil => cases hp
  | cons q t ih =>
      rcases List.mem_cons.mp hp with hpq | hp'
      · subst hpq
        apply List.mem_cons.mpr
        left
        have hlt : p.2.coords.indexOf v < p.2.coords.length :=
          List.indexOf_lt_length.mpr hv
        have hval : p.2.coords.getD
            (p.2.coords.indexOf v % p.2.coords.length) 0 = v := by
          rw [Nat.mod_eq_of_lt hlt, List.getD_eq_getElem _ _ hlt]
          exact List.indexOf_get hlt
        rw [hval]
      · exact List.mem_cons.mpr (Or.inr (ih hp' (k0 + 1)))

/-- C3: with an empty history (the empty list also models `None`) the
surrogate ensemble is never fitted, exactly `n` assignments are returned,
every value is grid-valid, and each value is exactly the parameter's
coordinate selected by its own uniform draw — so every coordinate of every
parameter is attainable in every suggestion slot by some draw. -/
theorem suggest_empty_no_fit (st : SearcherState) (n : ℕ) (rng : ℕ → ℕ)
    (cands : ℕ → List ℚ × ℚ)
    (hne : ∀ p ∈ st.config, p.2.coords ≠ [])
    (hnd : (st.config.map Prod.fst).Nodup) :
    (suggest st [] n rng cands).fitCalled = false ∧
    (suggest st [] n rng cands).suggestions.length = n ∧
    GridValid st.config (suggest st [] n rng cands).suggestions ∧
    ∀ p ∈ st.config, ∀ v ∈ p.2.coords, ∃ rng2 : ℕ → ℕ,
      ∀ s ∈ (suggest st [] n rng2 cands).suggestions, (p.1, v) ∈ s := by
  refine ⟨rfl, ?_, ?_, ?_⟩
  · show (initParamGroup st.config rng n).length = n
    simp [initParamGroup]
  · show GridValid st.config (initParamGroup st.config rng n)
    exact gridValid_initParamGroup st.config rng n hne hnd
  · intro p hp v hv
    refine ⟨fun _ => p.2.coords.indexOf v, ?_⟩
    intro s hs
    have hs' : s ∈ initParamGroup st.config
        (fun _ => p.2.coords.indexOf v) n := hs
    simp only [initParamGroup, List.mem_map] at hs'
    obtain ⟨k, -, hk⟩ := hs'
    rw [← hk]
    exact assignRow_attains st.config p hp v hv _

/-- Witness for C3 with two requested suggestions over `cfgW`. -/
theorem suggest_empty_no_fit_witness :
    (∀ p ∈ stW.config, p.2.coords ≠ []) ∧
      ((suggest stW [] 2 (fun _ => 0) (fun _ => ([0], 0))).fitCalled = false ∧
       (suggest stW [] 2 (fun _ => 0)
         (fun _ => ([0], 0))).suggestions.length = 2 ∧
       GridValid stW.config
         (suggest stW [] 2 (fun _ => 0) (fun _ => ([0], 0))).suggestions ∧
       ∀ p ∈ stW.config, ∀ v ∈ p.2.coords, ∃ rng2 : ℕ → ℕ,
         ∀ s ∈ (suggest stW [] 2 rng2 (fun _ => ([0], 0))).suggestions,
           (p.1, v) ∈ s) :=
  ⟨by decide,
    suggest_empty_no_fit stW 2 (fun _ => 0) (fun _ => ([0], 0))
      (by decide) (by decide)⟩

/-- A configuration whose only parameter has a non-double type tag. -/
def cfgBad : ParamsConfig :=
  [("p1", { coords := [0], minVal := 0, maxVal := 0, ptype := 2 })]

/-- C8: constructing the searcher over a configuration containing a
parameter whose `parameter_type` is not the continuous (double) tag `1`
fails at construction. -/
theorem mkSearcher_rejects_non_double (cfg : ParamsConfig)
    (n_iter n_suggestion : ℕ) (p : String × ParamConf) (hp : p ∈ cfg)
    (hty : p.2.ptype ≠ 1) :
    ∃ e, mkSearcher cfg n_iter n_suggestion = Except.error e := by
  have hall : cfg.all (fun q => q.2.ptype == 1 && !q.2.coords.isEmpty)
      = false := by
    cases hc : cfg.all (fun q => q.2.ptype == 1 && !q.2.coords.isEmpty) with
    | false => rfl
    | true =>
        exfalso
        have hpq := List.all_eq_true.mp hc p hp
        simp only [Bool.and_eq_true, beq_iff_eq] at hpq
        exact hty hpq.1
  have hchk : checkParametersConfig cfg = Except.error
      "parameter_type must be 1 (double) with a materialized coords list" := by
    unfold checkParametersConfig
    rw [hall]
    rfl
  refine ⟨"parameter_type must be 1 (double) with a materialized coords list",
    ?_⟩
  unfold mkSearcher
  rw [hchk]

/-- Witness for C8 at the concrete bad configuration `cfgBad`. -/
theorem mkSearcher_rejects_non_double_witness :
    (("p1", ({ coords := [0], minVal := 0, maxVal := 0, ptype := 2 }
        : ParamConf)) ∈ cfgBad) ∧
      ∃ e, mkSearcher cfgBad 1 1 = Except.error e :=
  ⟨by decide,
    mkSearcher_rejects_non_double cfgBad 1 1
      ("p1", { coords := [0], minVal := 0, maxVal := 0, ptype := 2 })
      (by decide) (by decide)⟩

/-! ## The C6 scenario: one parameter with coords `[0, 1, 2]` -/

/-- The scenario parameter space `{p1: coords [0, 1, 2]}`. -/
def cfg6 : ParamsConfig :=
  [("p1", { coords := [0, 1, 2], minVal := 0, maxVal := 2, ptype := 1 })]

/-- A freshly constructed searcher over `cfg6` (de-duplication on, as the
module-level `De_duplication = True` makes it). -/
def st6 : SearcherState :=
  { config := cfg6, iter := 0, improve_step := 3, de_duplication := true }

/-- The scenario history `[({p1: 0}, -5.0)]`. -/
def hist6 : List (List (String × ℚ) × ℚ) := [([("p1", 0)], -5)]

/-- Counterexample to C6: when all three maximizer candidates snap to the
already-observed point `0`, the de-duplication loop rejects them all and
the random backfill (`random_sample`, which draws from the full coordinate
list with no duplicate filtering) can return `{p1: 0}`: here all candidate
searches return the vector `[0]` and the backfill draw picks index `0`. -/
theorem scenario_counterexample :
    (suggest st6 hist6 1 (fun _ => 0) (fun _ => ([0], 0))).suggestions
      = [[("p1", 0)]] := by
  with_unfolding_all decide

theorem suggestRaw_one_accepted (st : SearcherState) (xdatas : List (List ℚ))
    (rng : ℕ → ℕ) (cands : ℕ → List ℚ × ℚ)
    (hdd : st.de_duplication = true)
    (hsome : ∃ c ∈ (sortedCands cands 1).map Prod.fst,
      isDup xdatas (sortConfig st.config) c = false) :
    ∃ c ∈ (sortedCands cands 1).map Prod.fst,
      isDup xdatas (sortConfig st.config) c = false ∧
        suggestRaw st xdatas 1 rng cands = [c] := by
  obtain ⟨c0, hc0m, hc0d⟩ := hsome
  have hmem : c0 ∈ ((sortedCands cands 1).map Prod.fst).filter
      (fun c => !(isDup xdatas (sortConfig st.config) c)) :=
    List.mem_filter.mpr ⟨hc0m, by simp [hc0d]⟩
  cases hflc : ((sortedCands cands 1).map Prod.fst).filter
      (fun c => !(isDup xdatas (sortConfig st.config) c)) with
  | nil => rw [hflc] at hmem; cases hmem
  | cons d rest =>
      have hd : d ∈ ((sortedCands cands 1).map Prod.fst).filter
          (fun c => !(isDup xdatas (sortConfig st.config) c)) := by
        rw [hflc]
        exact List.mem_cons_self d rest
      have hdm := List.mem_filter.mp hd
      refine ⟨d, hdm.1, by simpa using hdm.2, ?_⟩
      simp only [suggestRaw, hdd, if_true]
      rw [hflc]
      simp

/-- C6 as amended: in the scenario (coords `[0, 1, 2]`, history
`[({p1: 0}, -5.0)]`, one suggestion, de-duplication on), whenever at least
one of the three maximizer candidates does not snap to the observed point
`0`, the returned suggestion is `{p1: 1}` or `{p1: 2}` — the non-duplicate
guarantee holds for candidates accepted by the de-duplication loop; only
the random backfill taken when all candidates snap to `0` can return
`{p1: 0}` (see the counterexample). -/
theorem scenario_amended (rng : ℕ → ℕ) (cands : ℕ → List ℚ × ℚ)
    (hlen : ∀ i < 3, (cands i).1.length = 1)
    (hsome : ∃ i < 3,
      getValidSuggestion (sortConfig cfg6) (cands i).1 ≠ [0]) :
    (suggest st6 hist6 1 rng cands).suggestions = [[("p1", 1)]] ∨
      (suggest st6 hist6 1 rng cands).suggestions = [[("p1", 2)]] := by
  obtain ⟨i, hi3, hine⟩ := hsome
  have hmem : (cands i).1 ∈ (sortedCands cands 1).map Prod.fst := by
    apply List.mem_map.mpr
    refine ⟨((cands i).1, (cands i).2 * slotFactor i), ?_, rfl⟩
    apply (mem_sortByB _ _ _).mpr
    simp only [adjustedCands, List.mem_map]
    exact ⟨i, List.mem_range.mpr (by omega), rfl⟩
  have hxd : xDatas hist6 = [[0]] := by decide
  have hdup : isDup (xDatas hist6) (sortConfig cfg6) (cands i).1 = false := by
    rw [hxd]
    simp only [isDup, List.any_cons, List.any_nil, Bool.or_false]
    exact decide_eq_false (fun h => hine h.symm)
  obtain ⟨c, hcm, hcd, hraw⟩ := suggestRaw_one_accepted st6 (xDatas hist6)
    rng cands rfl ⟨(cands i).1, hmem, hdup⟩
  have hclen : c.length = 1 := by
    obtain ⟨pr, hpr, hc⟩ := List.mem_map.mp hcm
    have hadj : pr ∈ adjustedCands cands 1 := (mem_sortByB _ _ _).mp hpr
    simp only [adjustedCands, List.mem_map, List.mem_range] at hadj
    obtain ⟨j, hj, hpr2⟩ := hadj
    rw [← hc, ← hpr2]
    exact hlen j (by omega)
  obtain ⟨v, hv⟩ : ∃ v, c = [v] := by
    cases c with
    | nil => simp at hclen
    | cons a t =>
        cases t with
        | nil => exact ⟨a, rfl⟩
        | cons b r => simp at hclen
  have hmemg : getParamValue [0, 1, 2] v ∈ [(0 : ℚ), 1, 2] :=
    getParamValue_mem _ _ (by decide)
  have hne0 : getParamValue [0, 1, 2] v ≠ 0 := by
    intro h0
    rw [hxd, hv] at hcd
    have hcd' : isDup [[0]] (sortConfig cfg6) [v] = false := hcd
    have hgvs : getValidSuggestion (sortConfig cfg6) [v]
        = [getParamValue [0, 1, 2] v] := rfl
    rw [show isDup [[0]] (sortConfig cfg6) [v]
        = decide (([(0 : ℚ)] : List ℚ)
          = getValidSuggestion (sortConfig cfg6) [v]) from by
        simp [isDup]] at hcd'
    rw [hgvs, h0] at hcd'
    simp at hcd'
  have hres : (suggest st6 hist6 1 rng cands).suggestions
      = [[("p1", getParamValue [0, 1, 2] v)]] := by
    have hsug : (suggest st6 hist6 1 rng cands).suggestions
        = parseSuggestions (sortConfig st6.config)
          (suggestRaw st6 (xDatas hist6) 1 rng cands) := rfl
    rw [hsug, hraw, hv]
    rfl
  rcases List.mem_cons.mp hmemg with h0 | hrest
  · exact absurd h0 hne0
  · rcases List.mem_cons.mp hrest with h1 | hrest2
    · left
      rw [hres, h1]
    · rcases List.mem_cons.mp hrest2 with h2 | hnil
      · right
        rw [hres, h2]
      · cases hnil

/-- Witness for the amended C6: all three candidate searches return the
vector `[1]` (which snaps to `1`, not a duplicate of the history). -/
theorem scenario_amended_witness :
    (∀ i < 3, ((fun _ : ℕ => (([1] : List ℚ), (0 : ℚ))) i).1.length = 1) ∧
      ((suggest st6 hist6 1 (fun _ => 0)
          (fun _ => ([1], 0))).suggestions = [[("p1", 1)]] ∨
        (suggest st6 hist6 1 (fun _ => 0)
          (fun _ => ([1], 0))).suggestions = [[("p1", 2)]]) :=
  ⟨by decide,
    scenario_amended (fun _ => 0) (fun _ => ([1], 0)) (by decide)
      ⟨0, by decide, by decide⟩⟩
